import Mathlib

/-!
Verification of the volume-loading core of `src/nvimage.js` (the `NVImage`
constructor and its helper methods).

Modelling conventions, used throughout:

* JavaScript numbers are modelled by `JSNum`: either `NaN` or an exact
  rational.  The source never produces `Infinity` on the paths studied here,
  so the infinities are not modelled; `isFinite` coincides with "not NaN"
  in this embedding.  Arithmetic on rationals is exact, which is faithful to
  every claim below: none of them depends on rounding of IEEE doubles.
* `Math.sqrt` returns `NaN` on negative input; on nonnegative input we use
  `Rat.sqrt` as a computable stand-in for the real square root.  Every
  theorem about `jsSqrt` below depends only on the sign test, never on the
  value returned for a nonnegative radicand.
* JavaScript bitwise operators coerce their operands to 32-bit integers.  A
  32-bit integer is represented here by its unsigned bit pattern (a natural
  number below `2 ^ 32`); `&`, `|`, `<<` act identically on signed and
  unsigned readings of a pattern, and the sign-propagating right shift `>>`
  is modelled explicitly (`jsSar32`).  Storing into a `Uint16Array` /
  `Uint32Array` slot reduces the pattern `% 2 ^ 16` / `% 2 ^ 32`.
* Typed-array voxel buffers are modelled at element granularity as lists.
-/

/-- A JavaScript number: `NaN` or a finite (exact) value. -/
inductive JSNum where
  | nan : JSNum
  | num : ℚ → JSNum
  deriving DecidableEq, Repr

namespace JSNum

/-- `isNaN(x)`. -/
def isNaNb : JSNum → Bool
  | nan => true
  | num _ => false

/-- `x === q` for a finite literal `q` (NaN is `===` to nothing). -/
def eqNum : JSNum → ℚ → Bool
  | nan, _ => false
  | num a, q => a == q

/-- JavaScript `+` (NaN propagates). -/
def add : JSNum → JSNum → JSNum
  | num a, num b => num (a + b)
  | _, _ => nan

/-- JavaScript `-` (NaN propagates). -/
def sub : JSNum → JSNum → JSNum
  | num a, num b => num (a - b)
  | _, _ => nan

/-- JavaScript `*` (NaN propagates). -/
def mul : JSNum → JSNum → JSNum
  | num a, num b => num (a * b)
  | _, _ => nan

/-- JavaScript `/` (NaN propagates).  A zero divisor would give `Infinity`
in JavaScript; the embedding returns `nan` there, and no theorem below
depends on that unreachable case. -/
def div : JSNum → JSNum → JSNum
  | num a, num b => if b = 0 then nan else num (a / b)
  | _, _ => nan

/-- JavaScript `<` (false whenever either side is NaN). -/
def ltb : JSNum → JSNum → Bool
  | num a, num b => decide (a < b)
  | _, _ => false

/-- JavaScript `>` (false whenever either side is NaN). -/
def gtb : JSNum → JSNum → Bool
  | num a, num b => decide (b < a)
  | _, _ => false

/-- JavaScript `<=` (false whenever either side is NaN). -/
def leb : JSNum → JSNum → Bool
  | num a, num b => decide (a ≤ b)
  | _, _ => false

/-- JavaScript `>=` (false whenever either side is NaN). -/
def geb : JSNum → JSNum → Bool
  | num a, num b => decide (b ≤ a)
  | _, _ => false

/-- `Math.min` (NaN propagates). -/
def minJ : JSNum → JSNum → JSNum
  | num a, num b => num (min a b)
  | _, _ => nan

/-- `Math.max` (NaN propagates). -/
def maxJ : JSNum → JSNum → JSNum
  | num a, num b => num (max a b)
  | _, _ => nan

/-- `Math.abs` (NaN propagates). -/
def absJ : JSNum → JSNum
  | num a => num |a|
  | nan => nan

/-- `Math.sqrt`: `NaN` on negative input.  On a nonnegative rational,
`Rat.sqrt` stands in for the real square root (see the header comment). -/
def sqrtJ : JSNum → JSNum
  | num a => if a < 0 then nan else num (Rat.sqrt a)
  | nan => nan

/-- `isFinite` restricted to this embedding (no infinities are modelled). -/
def isFiniteb : JSNum → Bool
  | nan => false
  | num _ => true

end JSNum

open JSNum

/-! ## Affine validity and repair (C1)

`isAffineOK` (nvimage.js lines 125-147) and the defective-affine repair
(lines 203-222). -/

/-- Embed `Fin 3` into `Fin 4` (the leading 3×3 block of a 4×4 matrix). -/
def pad3 (i : Fin 3) : Fin 4 := ⟨i.val, by omega⟩

/-- `isAffineOK(mtx)`: false if any of the 16 entries is `NaN`; otherwise
require every row and every column of the leading 3×3 block to contain a
nonzero entry (`iOK`/`jOK` in the source). -/
def isAffineOK (m : Fin 4 → Fin 4 → JSNum) : Bool :=
  if _h : ∃ i j : Fin 4, (m i j).isNaNb then false
  else
    decide ((∀ i : Fin 3, ∃ j : Fin 3, ¬(m (pad3 i) (pad3 j)).eqNum 0) ∧
      (∀ j : Fin 3, ∃ i : Fin 3, ¬(m (pad3 i) (pad3 j)).eqNum 0))

/-- The per-spacing repair (lines 209-211): `if (isNaN(x) || x === 0.0) x = 1.0`. -/
def repairSpacing (x : JSNum) : JSNum :=
  if x.isNaNb || x.eqNum 0 then num 1 else x

/-- The repaired affine (lines 215-220): a pure diagonal scaling matrix with
zero translation, built from the three (already repaired) spacings. -/
def diagAffine (x y z : JSNum) : Fin 4 → Fin 4 → JSNum :=
  fun i j =>
    if i = j then
      if i.val = 0 then x else if i.val = 1 then y else if i.val = 2 then z else num 1
    else num 0

theorem repairSpacing_not_nan (x : JSNum) : (repairSpacing x).isNaNb = false := by
  unfold repairSpacing
  rcases x with _ | q
  · simp [JSNum.isNaNb, JSNum.eqNum]
  · by_cases h : (q : ℚ) = 0 <;> simp [JSNum.isNaNb, JSNum.eqNum, h]

theorem repairSpacing_ne_zero (x : JSNum) : (repairSpacing x).eqNum 0 = false := by
  unfold repairSpacing
  rcases x with _ | q
  · simp [JSNum.isNaNb, JSNum.eqNum]
  · by_cases h : (q : ℚ) = 0 <;> simp [JSNum.isNaNb, JSNum.eqNum, h]

/-- **C1.**  Whenever a header affine fails `isAffineOK`, the repair step —
replace each NaN-or-zero spacing by `1.0` and rebuild the affine as
`diag(pixDims[1], pixDims[2], pixDims[3], 1)` with zero translation —
produces a matrix that `isAffineOK` accepts. -/
theorem repaired_affine_isAffineOK (m : Fin 4 → Fin 4 → JSNum) (x y z : JSNum)
    (_hm : isAffineOK m = false) :
    isAffineOK (diagAffine (repairSpacing x) (repairSpacing y) (repairSpacing z)) = true := by
  unfold isAffineOK
  rw [dif_neg]
  · rw [decide_eq_true_iff]
    constructor
    · intro i
      refine ⟨i, ?_⟩
      fin_cases i <;>
        simp [diagAffine, pad3, repairSpacing_ne_zero]
    · intro j
      refine ⟨j, ?_⟩
      fin_cases j <;>
        simp [diagAffine, pad3, repairSpacing_ne_zero]
  · rintro ⟨i, j, hij⟩
    have hf : (diagAffine (repairSpacing x) (repairSpacing y) (repairSpacing z) i j).isNaNb
        = false := by
      unfold diagAffine
      split
      · split
        · exact repairSpacing_not_nan x
        · split
          · exact repairSpacing_not_nan y
          · split
            · exact repairSpacing_not_nan z
            · rfl
      · rfl
    rw [hij] at hf
    exact Bool.noConfusion hf

/-- Witness for C1 at a concrete defective affine (all-zero matrix) and
concrete spacings (NaN, 0, 2). -/
theorem repaired_affine_isAffineOK_witness :
    isAffineOK (fun _ _ => num 0) = false ∧
      isAffineOK (diagAffine (repairSpacing nan) (repairSpacing (num 0))
        (repairSpacing (num 2))) = true := by
  refine ⟨by decide, ?_⟩
  exact repaired_affine_isAffineOK (fun _ _ => num 0) nan (num 0) (num 2) (by decide)

/-! ## Quaternion expansion (C2)

The qform branch of affine resolution (nvimage.js lines 152-202).  The
source computes `a = Math.sqrt(1.0 - (b*b + c*c + d*d))` with **no**
clamping of the radicand at zero. -/

/-- `Math.pow(x, 2)` as used at line 167: `x * x`. -/
def jsPow2 (x : JSNum) : JSNum := x.mul x

/-- The derived quaternion scalar (lines 166-168):
`a = Math.sqrt(1.0 - (Math.pow(b,2) + Math.pow(c,2) + Math.pow(d,2)))`. -/
def quatern_a (b c d : JSNum) : JSNum :=
  JSNum.sqrtJ ((num 1).sub (((jsPow2 b).add (jsPow2 c)).add (jsPow2 d)))

/-- Entry `[0][0]` of `quatern_R` (line 172): `a*a + b*b - c*c - d*d`,
with `a` the derived scalar. -/
def quatern_R00 (b c d : JSNum) : JSNum :=
  let a := quatern_a b c d
  (((a.mul a).add (b.mul b)).sub (c.mul c)).sub (d.mul d)

/-- Entry `[0][0]` of the rebuilt affine (line 190):
`quatern_R[0][0] * pixDims[1]`. -/
def qformAffine00 (b c d p1 : JSNum) : JSNum := (quatern_R00 b c d).mul p1

/-- **C2, counterexample.**  At the stored quaternion `(b, c, d) = (1, 1, 0)`
the radicand is `1 - 2 = -1`, so the derived scalar `a` is `NaN` — the
claim says `a = sqrt(max(0, 1 - (b² + c² + d²)))` is never `NaN`.
The rebuilt affine's rotation entry is `NaN` as well. -/
theorem quatern_a_nan_counterexample :
    quatern_a (num 1) (num 1) (num 0) = JSNum.nan ∧
      qformAffine00 (num 1) (num 1) (num 0) (num 1) = JSNum.nan := by
  have h : quatern_a (num 1) (num 1) (num 0) = JSNum.nan := by
    simp [quatern_a, jsPow2, JSNum.mul, JSNum.add, JSNum.sub, JSNum.sqrtJ]
  exact ⟨h, by simp [qformAffine00, quatern_R00, h, JSNum.mul, JSNum.add, JSNum.sub]⟩

/-- **C2, amended.**  The derived scalar is `a = sqrt(1 - (b² + c² + d²))`
with no clamping: for finite stored `(b, c, d)`, `a` (and with it the
rebuilt rotation entry, for any finite spacing) is `NaN` exactly when
`b² + c² + d² > 1`. -/
theorem quatern_a_nan_iff (b c d p1 : ℚ) :
    (quatern_a (num b) (num c) (num d) = JSNum.nan ↔ 1 - (b * b + c * c + d * d) < 0) ∧
      (qformAffine00 (num b) (num c) (num d) (num p1) = JSNum.nan ↔
        1 - (b * b + c * c + d * d) < 0) := by
  have h : quatern_a (num b) (num c) (num d)
      = if 1 - (b * b + c * c + d * d) < 0 then JSNum.nan
        else num (Rat.sqrt (1 - (b * b + c * c + d * d))) := by
    simp [quatern_a, jsPow2, JSNum.mul, JSNum.add, JSNum.sub, JSNum.sqrtJ]
  by_cases hlt : 1 - (b * b + c * c + d * d) < 0 <;>
    simp [h, hlt, qformAffine00, quatern_R00, JSNum.mul, JSNum.add, JSNum.sub]

/-! ## Voxel datatype resolution (C4)

The `switch (this.hdr.datatypeCode)` of the constructor (nvimage.js lines
263-321).  Buffers are modelled at element granularity: reinterpreting the
raw bytes as a typed array yields the element list that is the input here.
Element values are exact integers (see the header comment). -/

/-- NIfTI datatype codes used by the source (lines 54-73). -/
def DT_UNSIGNED_CHAR : ℕ := 2
def DT_SIGNED_SHORT : ℕ := 4
def DT_SIGNED_INT : ℕ := 8
def DT_FLOAT : ℕ := 16
def DT_DOUBLE : ℕ := 64
def DT_RGB : ℕ := 128
def DT_INT8 : ℕ := 256
def DT_UINT16 : ℕ := 512
def DT_UINT32 : ℕ := 768
def DT_INT64 : ℕ := 1024
def DT_RGBA32 : ℕ := 2304

/-- The promotion loop shared by the `DT_INT8`, `DT_UINT32`, `DT_SIGNED_INT`
and `DT_INT64` cases: allocate a zero-filled buffer of the source's length
and copy with `for (let i = 0; i < n - 1; i++) out[i] = src[i]` — the last
source element is never copied. -/
def promoteCopy (src : List ℤ) : List ℤ :=
  (List.range src.length).map fun i => if i + 1 < src.length then src.getD i 0 else 0

/-- The datatype switch: native widths are reinterpreted as-is; `DT_INT8`
widens to `DT_SIGNED_SHORT`; `DT_UINT32`, `DT_SIGNED_INT` and `DT_INT64`
promote to `DT_DOUBLE`; anything else throws (`none`).  Returns the typed
buffer and the (possibly rewritten) header datatype code. -/
def applyDatatype (code : ℕ) (raw : List ℤ) : Option (List ℤ × ℕ) :=
  if code = DT_UNSIGNED_CHAR then some (raw, code)
  else if code = DT_SIGNED_SHORT then some (raw, code)
  else if code = DT_FLOAT then some (raw, code)
  else if code = DT_DOUBLE then some (raw, code)
  else if code = DT_RGB then some (raw, code)
  else if code = DT_UINT16 then some (raw, code)
  else if code = DT_RGBA32 then some (raw, code)
  else if code = DT_INT8 then some (promoteCopy raw, DT_SIGNED_SHORT)
  else if code = DT_UINT32 then some (promoteCopy raw, DT_DOUBLE)
  else if code = DT_SIGNED_INT then some (promoteCopy raw, DT_DOUBLE)
  else if code = DT_INT64 then some (promoteCopy raw, DT_DOUBLE)
  else none

theorem promoteCopy_length (src : List ℤ) : (promoteCopy src).length = src.length := by
  simp [promoteCopy]

theorem promoteCopy_getD (src : List ℤ) (i : ℕ) (hi : i + 1 < src.length) :
    (promoteCopy src).getD i 0 = src.getD i 0 := by
  unfold promoteCopy
  rw [List.getD_eq_getElem?_getD, List.getElem?_map]
  rw [List.getElem?_range (by omega)]
  simp [hi]

theorem promoteCopy_last (src : List ℤ) (h : 1 ≤ src.length) :
    (promoteCopy src).getD (src.length - 1) 0 = 0 := by
  unfold promoteCopy
  rw [List.getD_eq_getElem?_getD, List.getElem?_map]
  rw [List.getElem?_range (by omega)]
  simp
  omega

/-- The conclusion of C4 for one promoted datatype: same element count, a
faithful copy on indices `0 … n-2`, a zero in the final slot, and the
rewritten header code. -/
def promotesTo (codeIn codeOut : ℕ) : Prop :=
  ∀ src : List ℤ,
    ∃ out : List ℤ, applyDatatype codeIn src = some (out, codeOut) ∧
      out.length = src.length ∧
      (∀ i : ℕ, i + 1 < src.length → out.getD i 0 = src.getD i 0) ∧
      (1 ≤ src.length → out.getD (src.length - 1) 0 = 0)

/-- **C4.**  Each promoted datatype — signed 8-bit widened to `Int16`, and
unsigned 32-bit / signed 32-bit / signed 64-bit promoted to `Float64` —
keeps the element count, copies elements `0 … n-2`, leaves the final output
element zero (the last source element is not copied), and rewrites the
header datatype code to signed short, respectively double. -/
theorem datatype_promotion_ok :
    promotesTo DT_INT8 DT_SIGNED_SHORT ∧ promotesTo DT_UINT32 DT_DOUBLE ∧
      promotesTo DT_SIGNED_INT DT_DOUBLE ∧ promotesTo DT_INT64 DT_DOUBLE := by
  refine ⟨?_, ?_, ?_, ?_⟩ <;>
    · intro src
      refine ⟨promoteCopy src, by rfl, promoteCopy_length src,
        fun i hi => promoteCopy_getD src i hi, fun h => promoteCopy_last src h⟩

/-- Witness for C4 at the concrete buffer `[5, -7, 9]` under `DT_SIGNED_INT`. -/
theorem datatype_promotion_ok_witness :
    applyDatatype DT_SIGNED_INT [5, -7, 9] = some ([5, -7, 0], DT_DOUBLE) := by
  have h := (datatype_promotion_ok.2.2.1) [5, -7, 9]
  rcases h with ⟨out, heq, hlen, hcopy, hlast⟩
  have h0 := hcopy 0 (by simp)
  have h1 := hcopy 1 (by simp)
  have h2 := hlast (by simp)
  have : out = [5, -7, 0] := by
    have hl : out.length = 3 := by simpa using hlen
    rcases out with _ | ⟨a, _ | ⟨b, _ | ⟨c, _ | _⟩⟩⟩ <;> simp_all [List.getD]
  rw [this] at heq
  exact heq

/-! ## RAS axis permutation and flips (C5)

`calculateRAS` (nvimage.js lines 933-1067).  `absR` holds the absolute
values of the leading 3×3 block of the resolved affine `a`, with
`absR[3*i + j] = |a[i][j]|`; comparisons are JavaScript `>` / `<`, which
are false on NaN, so no nondegeneracy assumption is needed. -/

/-- `absR` entry `|a[i][j]|`. -/
def absRv (a : Fin 4 → Fin 4 → JSNum) (i j : Fin 4) : JSNum := (a i j).absJ

/-- `ixyz[0]` (lines 951-957): source axis with the dominant first column,
preferring 1 over 2 over 3 on ties. -/
def ixyz0 (a : Fin 4 → Fin 4 → JSNum) : ℕ :=
  let v : ℕ := if (absRv a 1 0).gtb (absRv a 0 0) then 2 else 1
  if (absRv a 2 0).gtb (absRv a 0 0) && (absRv a 2 0).gtb (absRv a 1 0) then 3 else v

/-- `ixyz[1]` (lines 958-980): dominant second column among the two source
axes not taken by `ixyz[0]`. -/
def ixyz1 (a : Fin 4 → Fin 4 → JSNum) : ℕ :=
  if ixyz0 a = 1 then if (absRv a 1 1).gtb (absRv a 2 1) then 2 else 3
  else if ixyz0 a = 2 then if (absRv a 0 1).gtb (absRv a 2 1) then 1 else 3
  else if (absRv a 0 1).gtb (absRv a 1 1) then 1 else 2

/-- `ixyz[2] = 6 - ixyz[1] - ixyz[0]` (line 982). -/
def ixyz2 (a : Fin 4 → Fin 4 → JSNum) : ℕ := 6 - ixyz1 a - ixyz0 a

/-- `perm` (lines 983-986): start from `[1,2,3]` and assign
`perm[ixyz[k]-1] = k+1`. -/
def permList (a : Fin 4 → Fin 4 → JSNum) : List ℕ :=
  (([1, 2, 3].set (ixyz0 a - 1) 1).set (ixyz1 a - 1) 2).set (ixyz2 a - 1) 3

/-- Clamp a natural to a `Fin 4` column index (the source indexes with
`perm[j] - 1`, always in `{0,1,2}`; the clamp is never active). -/
def colIdx (n : ℕ) : Fin 4 := ⟨min n 3, by omega⟩

/-- The flip vector (lines 1017-1026): `flip[k] = 1` iff the permuted
diagonal entry `R[k][k] = a[k][perm[k]-1]` is negative. -/
def flipVec (a : Fin 4 → Fin 4 → JSNum) : List ℕ :=
  [ if (a 0 (colIdx ((permList a).getD 0 1 - 1))).ltb (num 0) then 1 else 0,
    if (a 1 (colIdx ((permList a).getD 1 1 - 1))).ltb (num 0) then 1 else 0,
    if (a 2 (colIdx ((permList a).getD 2 1 - 1))).ltb (num 0) then 1 else 0 ]

theorem ixyz0_mem (a : Fin 4 → Fin 4 → JSNum) :
    ixyz0 a = 1 ∨ ixyz0 a = 2 ∨ ixyz0 a = 3 := by
  unfold ixyz0
  split_ifs <;> simp

theorem ixyz01_cases (a : Fin 4 → Fin 4 → JSNum) :
    (ixyz0 a = 1 ∧ (ixyz1 a = 2 ∨ ixyz1 a = 3)) ∨
      (ixyz0 a = 2 ∧ (ixyz1 a = 1 ∨ ixyz1 a = 3)) ∨
      (ixyz0 a = 3 ∧ (ixyz1 a = 1 ∨ ixyz1 a = 2)) := by
  rcases ixyz0_mem a with h | h | h <;>
    [left; (right; left); (right; right)] <;>
    refine ⟨h, ?_⟩ <;> unfold ixyz1 <;> rw [h] <;> split_ifs <;> simp_all

/-- **C5.**  For every resolved affine, the permutation computed by
`calculateRAS` is a bijection on `{1,2,3}` (each source axis is assigned to
exactly one output axis, the third forced via `6 - ixyz[0] - ixyz[1]`), and
every component of the flip vector is 0 or 1.  No nondegeneracy of the 3×3
block is needed: the theorem is unconditional. -/
theorem calculateRAS_perm_bijection (a : Fin 4 → Fin 4 → JSNum) :
    (permList a).Perm [1, 2, 3] ∧ ∀ f ∈ flipVec a, f = 0 ∨ f = 1 := by
  constructor
  · rcases ixyz01_cases a with ⟨h0, h1 | h1⟩ | ⟨h0, h1 | h1⟩ | ⟨h0, h1 | h1⟩ <;>
      · unfold permList ixyz2
        rw [h0, h1]
        decide
  · intro f hf
    simp only [flipVec, List.mem_cons, List.mem_singleton] at hf
    rcases hf with h | h | h | h <;> first
      | (subst h; split <;> simp)
      | cases h

/-! ## Endian swap (C3)

The foreign-endian swap (nvimage.js lines 224-262).  See the header comment
for the 32-bit pattern representation of JavaScript bitwise arithmetic. -/

/-- Reduce to a 32-bit pattern (JavaScript `ToInt32`/`ToUint32`, read as an
unsigned pattern). -/
def pat32 (n : ℕ) : ℕ := n % 2 ^ 32

/-- JavaScript `&` on 32-bit patterns. -/
def jsAnd32 (a b : ℕ) : ℕ := pat32 a &&& pat32 b

/-- JavaScript `|` on 32-bit patterns. -/
def jsOr32 (a b : ℕ) : ℕ := pat32 a ||| pat32 b

/-- JavaScript `<<` on 32-bit patterns (shift count taken mod 32). -/
def jsShl32 (a n : ℕ) : ℕ := pat32 (pat32 a <<< (n % 32))

/-- JavaScript `>>` (sign-propagating) on 32-bit patterns: shift right and,
when the sign bit of the pattern is set, fill the vacated high bits with
ones. -/
def jsSar32 (a n : ℕ) : ℕ :=
  (pat32 a >>> (n % 32)) |||
    (if 2 ^ 31 ≤ pat32 a then (2 ^ (n % 32) - 1) <<< (32 - n % 32) else 0)

/-- The 16-bit element swap (line 235):
`u16[i] = ((((val & 0xff) << 8) | ((val >> 8) & 0xff)) << 16) >> 16`,
stored back into a `Uint16Array` slot (`% 2^16`). -/
def swap16 (val : ℕ) : ℕ :=
  jsSar32 (jsShl32 (jsOr32 (jsShl32 (jsAnd32 val 255) 8) (jsAnd32 (jsSar32 val 8) 255)) 16) 16
    % 2 ^ 16

/-- The 32-bit element swap (lines 242-246):
`u32[i] = ((val & 0xff) << 24) | ((val & 0xff00) << 8) | ((val >> 8) & 0xff00) | ((val >> 24) & 0xff)`,
stored back into a `Uint32Array` slot (`% 2^32`). -/
def swap32 (val : ℕ) : ℕ :=
  jsOr32
    (jsOr32 (jsOr32 (jsShl32 (jsAnd32 val 255) 24) (jsShl32 (jsAnd32 val 65280) 8))
      (jsAnd32 (jsSar32 val 8) 65280))
    (jsAnd32 (jsSar32 val 24) 255) % 2 ^ 32

/-- The 64-bit branch (lines 248-261).  The body of its loop begins with
`let offset = bytesPer - 1`, but `bytesPer` is declared nowhere in the file
(the declared variable, line 250, is `numBytesPerVoxel`): the first loop
iteration throws a `ReferenceError`, so on any nonempty buffer the routine
produces no result (`none`); on an empty buffer the loop body never runs. -/
def swapVoxels64 (img : List ℕ) : Option (List ℕ) :=
  if img.isEmpty then some img else none

theorem land_two_pow_sub_one (u k : ℕ) : u &&& (2 ^ k - 1) = u % 2 ^ k := by
  apply Nat.eq_of_testBit_eq
  intro i
  rw [Nat.testBit_land, Nat.testBit_two_pow_sub_one, Nat.testBit_mod_two_pow, Bool.and_comm]

theorem land_lor_distrib (x y m : ℕ) : (x ||| y) &&& m = (x &&& m) ||| (y &&& m) := by
  apply Nat.eq_of_testBit_eq
  intro i
  rw [Nat.testBit_land, Nat.testBit_lor, Nat.testBit_lor, Nat.testBit_land, Nat.testBit_land]
  cases x.testBit i <;> cases y.testBit i <;> cases m.testBit i <;> rfl

theorem land_mask_shift (u a k : ℕ) :
    u &&& ((2 ^ a - 1) <<< k) = ((u >>> k) % 2 ^ a) <<< k := by
  apply Nat.eq_of_testBit_eq
  intro i
  rw [Nat.testBit_land, Nat.testBit_shiftLeft, Nat.testBit_shiftLeft,
    Nat.testBit_two_pow_sub_one, Nat.testBit_mod_two_pow, Nat.testBit_shiftRight]
  by_cases hik : k ≤ i
  · rw [show k + (i - k) = i by omega]
    simp only [ge_iff_le, hik]
    cases u.testBit i <;> simp
  · simp [show ¬i ≥ k by omega]

theorem lor_shiftLeft_add (x y k : ℕ) (hy : y < 2 ^ k) :
    (x <<< k) ||| y = x <<< k + y := by
  apply Nat.eq_of_testBit_eq
  intro i
  rw [Nat.testBit_lor]
  by_cases hik : i < k
  · have hx : (x <<< k).testBit i = false := by
      rw [Nat.testBit_shiftLeft]
      simp [show ¬i ≥ k by omega]
    rw [hx, Bool.false_or, Nat.testBit_to_div_mod, Nat.testBit_to_div_mod, Nat.shiftLeft_eq]
    have hsplit : x * 2 ^ k + y = y + 2 ^ i * (x * 2 ^ (k - i)) := by
      rw [← mul_assoc, mul_comm (2 ^ i) x, mul_assoc, ← pow_add]
      rw [show i + (k - i) = k by omega]
      ring
    rw [hsplit, Nat.add_mul_div_left _ _ (Nat.pos_pow_of_pos i (by omega))]
    have heven : ∃ w, x * 2 ^ (k - i) = 2 * w := by
      refine ⟨x * 2 ^ (k - i - 1), ?_⟩
      have h2 : (2:ℕ) ^ (k - i) = 2 * 2 ^ (k - i - 1) := by
        rw [← pow_succ']
        congr 1
        omega
      rw [h2]
      ring
    rcases heven with ⟨w, hw⟩
    rw [hw]
    rw [decide_eq_decide]
    omega
  · have hyb : y.testBit i = false := by
      rw [Nat.testBit_to_div_mod, Nat.div_eq_of_lt (lt_of_lt_of_le hy
        (Nat.pow_le_pow_right (by omega) (by omega)))]
      simp
    rw [hyb, Bool.or_false, Nat.testBit_shiftLeft]
    rw [show decide (i ≥ k) = true by rw [decide_eq_true_eq]; omega, Bool.true_and]
    rw [Nat.testBit_to_div_mod, Nat.testBit_to_div_mod, Nat.shiftLeft_eq]
    rw [show (2:ℕ) ^ i = 2 ^ k * 2 ^ (i - k) by rw [← pow_add]; congr 1; omega]
    rw [← Nat.div_div_eq_div_mul, show x * 2 ^ k + y = y + 2 ^ k * x by ring,
      Nat.add_mul_div_left _ _ (Nat.pos_pow_of_pos k (by omega)),
      Nat.div_eq_of_lt hy, Nat.zero_add]

theorem lor_lt_two_pow {x y n : ℕ} (hx : x < 2 ^ n) (hy : y < 2 ^ n) : x ||| y < 2 ^ n :=
  Nat.bitwise_lt hx hy


/-- Arithmetic characterization of the 16-bit swap: the two bytes trade
places. -/
theorem swap16_eq (v : ℕ) (hv : v < 2 ^ 16) : swap16 v = v % 256 * 256 + v / 256 := by
  have h1 : jsAnd32 v 255 = v % 256 := by
    unfold jsAnd32 pat32
    rw [Nat.mod_eq_of_lt (show v < 2 ^ 32 by omega),
      Nat.mod_eq_of_lt (show (255:ℕ) < 2 ^ 32 by norm_num),
      show (255:ℕ) = 2 ^ 8 - 1 from rfl, land_two_pow_sub_one]
    norm_num
  have h2 : jsShl32 (v % 256) 8 = v % 256 * 256 := by
    unfold jsShl32 pat32
    rw [Nat.mod_eq_of_lt (show v % 256 < 2 ^ 32 by omega),
      show (8 % 32 : ℕ) = 8 from rfl, Nat.shiftLeft_eq,
      Nat.mod_eq_of_lt (show v % 256 * 2 ^ 8 < 2 ^ 32 by omega)]
    norm_num
  have h3 : jsSar32 v 8 = v / 256 := by
    unfold jsSar32 pat32
    rw [Nat.mod_eq_of_lt (show v < 2 ^ 32 by omega), if_neg (show ¬(2 ^ 31 ≤ v) by omega),
      Nat.or_zero, show (8 % 32 : ℕ) = 8 from rfl, Nat.shiftRight_eq_div_pow]
  have h4 : jsAnd32 (v / 256) 255 = v / 256 := by
    unfold jsAnd32 pat32
    rw [Nat.mod_eq_of_lt (show v / 256 < 2 ^ 32 by omega),
      Nat.mod_eq_of_lt (show (255:ℕ) < 2 ^ 32 by norm_num),
      show (255:ℕ) = 2 ^ 8 - 1 from rfl, land_two_pow_sub_one]
    omega
  have h5 : jsOr32 (v % 256 * 256) (v / 256) = v % 256 * 256 + v / 256 := by
    unfold jsOr32 pat32
    rw [Nat.mod_eq_of_lt (show v % 256 * 256 < 2 ^ 32 by omega),
      Nat.mod_eq_of_lt (show v / 256 < 2 ^ 32 by omega),
      show v % 256 * 256 = (v % 256) <<< 8 by rw [Nat.shiftLeft_eq],
      lor_shiftLeft_add _ _ 8 (show v / 256 < 2 ^ 8 by omega)]
  have h6 : jsShl32 (v % 256 * 256 + v / 256) 16 = (v % 256 * 256 + v / 256) * 65536 := by
    unfold jsShl32 pat32
    rw [Nat.mod_eq_of_lt (show v % 256 * 256 + v / 256 < 2 ^ 32 by omega),
      show (16 % 32 : ℕ) = 16 from rfl, Nat.shiftLeft_eq,
      Nat.mod_eq_of_lt (show (v % 256 * 256 + v / 256) * 2 ^ 16 < 2 ^ 32 by omega)]
    norm_num
  have h7 : jsSar32 ((v % 256 * 256 + v / 256) * 65536) 16 % 2 ^ 16
      = v % 256 * 256 + v / 256 := by
    unfold jsSar32 pat32
    rw [Nat.mod_eq_of_lt (show (v % 256 * 256 + v / 256) * 65536 < 2 ^ 32 by omega),
      show (16 % 32 : ℕ) = 16 from rfl, show (32 - 16 : ℕ) = 16 from rfl,
      Nat.shiftRight_eq_div_pow,
      show (v % 256 * 256 + v / 256) * 65536 / 2 ^ 16 = v % 256 * 256 + v / 256 by norm_num]
    by_cases hc : 2 ^ 31 ≤ (v % 256 * 256 + v / 256) * 65536
    · rw [if_pos hc, Nat.lor_comm,
        lor_shiftLeft_add _ _ 16 (show v % 256 * 256 + v / 256 < 2 ^ 16 by omega),
        Nat.shiftLeft_eq]
      omega
    · rw [if_neg hc, Nat.or_zero]
      omega
  unfold swap16
  rw [h1, h2, h3, h4, h5, h6, h7]

/-- Arithmetic characterization of the 32-bit swap: the four bytes are
reversed. -/
theorem swap32_eq (v : ℕ) (hv : v < 2 ^ 32) :
    swap32 v = v % 256 * 16777216 + v / 256 % 256 * 65536 + v / 65536 % 256 * 256
      + v / 16777216 := by
  have a1 : jsAnd32 v 255 = v % 256 := by
    unfold jsAnd32 pat32
    rw [Nat.mod_eq_of_lt (show v < 2 ^ 32 by omega),
      Nat.mod_eq_of_lt (show (255:ℕ) < 2 ^ 32 by norm_num),
      show (255:ℕ) = 2 ^ 8 - 1 from rfl, land_two_pow_sub_one]
    norm_num
  have a2 : jsShl32 (v % 256) 24 = v % 256 * 16777216 := by
    unfold jsShl32 pat32
    rw [Nat.mod_eq_of_lt (show v % 256 < 2 ^ 32 by omega),
      show (24 % 32 : ℕ) = 24 from rfl, Nat.shiftLeft_eq,
      Nat.mod_eq_of_lt (show v % 256 * 2 ^ 24 < 2 ^ 32 by omega)]
    norm_num
  have a3 : jsAnd32 v 65280 = v / 256 % 256 * 256 := by
    unfold jsAnd32 pat32
    rw [Nat.mod_eq_of_lt (show v < 2 ^ 32 by omega),
      Nat.mod_eq_of_lt (show (65280:ℕ) < 2 ^ 32 by norm_num),
      show (65280:ℕ) = (2 ^ 8 - 1) <<< 8 from rfl, land_mask_shift,
      Nat.shiftLeft_eq, Nat.shiftRight_eq_div_pow]
    norm_num
  have a4 : jsShl32 (v / 256 % 256 * 256) 8 = v / 256 % 256 * 65536 := by
    unfold jsShl32 pat32
    rw [Nat.mod_eq_of_lt (show v / 256 % 256 * 256 < 2 ^ 32 by omega),
      show (8 % 32 : ℕ) = 8 from rfl, Nat.shiftLeft_eq,
      Nat.mod_eq_of_lt (show v / 256 % 256 * 256 * 2 ^ 8 < 2 ^ 32 by omega)]
    ring
  have a5 : jsAnd32 (jsSar32 v 8) 65280 = v / 65536 % 256 * 256 := by
    unfold jsSar32 jsAnd32 pat32
    rw [Nat.mod_eq_of_lt (show v < 2 ^ 32 by omega), show (8 % 32 : ℕ) = 8 from rfl,
      show (32 - 8 : ℕ) = 24 from rfl]
    have hb : (v >>> 8 ||| if 2 ^ 31 ≤ v then (2 ^ 8 - 1) <<< 24 else 0) < 2 ^ 32 := by
      apply lor_lt_two_pow
      · rw [Nat.shiftRight_eq_div_pow]
        omega
      · split <;> decide
    rw [Nat.mod_eq_of_lt hb, Nat.mod_eq_of_lt (show (65280:ℕ) < 2 ^ 32 by norm_num),
      land_lor_distrib]
    have hfill : (if 2 ^ 31 ≤ v then (2 ^ 8 - 1) <<< 24 else 0) &&& 65280 = 0 := by
      split <;> decide
    rw [hfill, Nat.or_zero,
      show (65280:ℕ) = (2 ^ 8 - 1) <<< 8 from rfl, land_mask_shift,
      Nat.shiftLeft_eq, Nat.shiftRight_eq_div_pow, Nat.shiftRight_eq_div_pow,
      Nat.div_div_eq_div_mul]
    norm_num
  have a6 : jsAnd32 (jsSar32 v 24) 255 = v / 16777216 := by
    unfold jsSar32 jsAnd32 pat32
    rw [Nat.mod_eq_of_lt (show v < 2 ^ 32 by omega), show (24 % 32 : ℕ) = 24 from rfl,
      show (32 - 24 : ℕ) = 8 from rfl]
    have hb : (v >>> 24 ||| if 2 ^ 31 ≤ v then (2 ^ 24 - 1) <<< 8 else 0) < 2 ^ 32 := by
      apply lor_lt_two_pow
      · rw [Nat.shiftRight_eq_div_pow]
        omega
      · split <;> decide
    rw [Nat.mod_eq_of_lt hb, Nat.mod_eq_of_lt (show (255:ℕ) < 2 ^ 32 by norm_num),
      land_lor_distrib]
    have hfill : (if 2 ^ 31 ≤ v then (2 ^ 24 - 1) <<< 8 else 0) &&& 255 = 0 := by
      split <;> decide
    rw [hfill, Nat.or_zero, show (255:ℕ) = 2 ^ 8 - 1 from rfl, land_two_pow_sub_one,
      Nat.shiftRight_eq_div_pow]
    omega
  have o1 : jsOr32 (v % 256 * 16777216) (v / 256 % 256 * 65536)
      = v % 256 * 16777216 + v / 256 % 256 * 65536 := by
    unfold jsOr32 pat32
    rw [Nat.mod_eq_of_lt (show v % 256 * 16777216 < 2 ^ 32 by omega),
      Nat.mod_eq_of_lt (show v / 256 % 256 * 65536 < 2 ^ 32 by omega),
      show v % 256 * 16777216 = (v % 256) <<< 24 by rw [Nat.shiftLeft_eq],
      lor_shiftLeft_add _ _ 24 (show v / 256 % 256 * 65536 < 2 ^ 24 by omega)]
  have o2 : jsOr32 (v % 256 * 16777216 + v / 256 % 256 * 65536) (v / 65536 % 256 * 256)
      = v % 256 * 16777216 + v / 256 % 256 * 65536 + v / 65536 % 256 * 256 := by
    unfold jsOr32 pat32
    rw [Nat.mod_eq_of_lt (show v % 256 * 16777216 + v / 256 % 256 * 65536 < 2 ^ 32 by omega),
      Nat.mod_eq_of_lt (show v / 65536 % 256 * 256 < 2 ^ 32 by omega),
      show v % 256 * 16777216 + v / 256 % 256 * 65536
        = (v % 256 * 256 + v / 256 % 256) <<< 16 by rw [Nat.shiftLeft_eq]; ring,
      lor_shiftLeft_add _ _ 16 (show v / 65536 % 256 * 256 < 2 ^ 16 by omega),
      Nat.shiftLeft_eq]
  have o3 : jsOr32 (v % 256 * 16777216 + v / 256 % 256 * 65536 + v / 65536 % 256 * 256)
      (v / 16777216)
      = v % 256 * 16777216 + v / 256 % 256 * 65536 + v / 65536 % 256 * 256
        + v / 16777216 := by
    unfold jsOr32 pat32
    rw [Nat.mod_eq_of_lt
        (show v % 256 * 16777216 + v / 256 % 256 * 65536 + v / 65536 % 256 * 256 < 2 ^ 32
          by omega),
      Nat.mod_eq_of_lt (show v / 16777216 < 2 ^ 32 by omega),
      show v % 256 * 16777216 + v / 256 % 256 * 65536 + v / 65536 % 256 * 256
        = (v % 256 * 65536 + v / 256 % 256 * 256 + v / 65536 % 256) <<< 8 by
          rw [Nat.shiftLeft_eq]; ring,
      lor_shiftLeft_add _ _ 8 (show v / 16777216 < 2 ^ 8 by omega),
      Nat.shiftLeft_eq]
  unfold swap32
  rw [a1, a2, a3, a4, a5, a6, o1, o2, o3,
    Nat.mod_eq_of_lt (show v % 256 * 16777216 + v / 256 % 256 * 65536 + v / 65536 % 256 * 256
      + v / 16777216 < 2 ^ 32 by omega)]

/-- **C3 (code bug).**  What actually holds of the endian-swap code: the
16-bit and 32-bit routines are involutions on their element domains, but
the 64-bit branch reads the undeclared identifier `bytesPer` (line 253) and
throws before swapping a single byte on any nonempty buffer, so it neither
reverses the 8 bytes of each element nor is an involution. -/
theorem swap16_bytes (b0 b1 : ℕ) (h0 : b0 < 256) (h1 : b1 < 256) :
    swap16 (b0 + 256 * b1) = b1 + 256 * b0 := by
  rw [swap16_eq _ (by omega)]
  omega

theorem swap32_bytes (b0 b1 b2 b3 : ℕ) (h0 : b0 < 256) (h1 : b1 < 256) (h2 : b2 < 256)
    (h3 : b3 < 256) :
    swap32 (b0 + 256 * b1 + 65536 * b2 + 16777216 * b3)
      = b3 + 256 * b2 + 65536 * b1 + 16777216 * b0 := by
  rw [swap32_eq _ (by omega)]
  omega

theorem endian_swap_involutions_and_64bit_crash :
    (∀ v : ℕ, v < 2 ^ 16 → swap16 (swap16 v) = v) ∧
      (∀ v : ℕ, v < 2 ^ 32 → swap32 (swap32 v) = v) ∧
      swapVoxels64 [0, 1, 2, 3, 4, 5, 6, 7] = none := by
  refine ⟨?_, ?_, rfl⟩
  · intro v hv
    obtain ⟨b0, b1, h0, h1, rfl⟩ :
        ∃ b0 b1, b0 < 256 ∧ b1 < 256 ∧ v = b0 + 256 * b1 :=
      ⟨v % 256, v / 256, by omega, by omega, by omega⟩
    rw [swap16_bytes b0 b1 h0 h1, swap16_bytes b1 b0 h1 h0]
  · intro v hv
    obtain ⟨b0, b1, b2, b3, h0, h1, h2, h3, rfl⟩ :
        ∃ b0 b1 b2 b3, b0 < 256 ∧ b1 < 256 ∧ b2 < 256 ∧ b3 < 256 ∧
          v = b0 + 256 * b1 + 65536 * b2 + 16777216 * b3 :=
      ⟨v % 256, v / 256 % 256, v / 65536 % 256, v / 16777216,
        by omega, by omega, by omega, by omega, by omega⟩
    rw [swap32_bytes b0 b1 b2 b3 h0 h1 h2 h3, swap32_bytes b3 b2 b1 b0 h3 h2 h1 h0]

/-- Witness for the involution halves of the C3 theorem at concrete
elements `0x1234` and `0x12345678`. -/
theorem endian_swap_involutions_witness :
    swap16 (swap16 4660) = 4660 ∧ swap32 (swap32 305419896) = 305419896 :=
  ⟨endian_swap_involutions_and_64bit_crash.1 4660 (by norm_num),
    endian_swap_involutions_and_64bit_crash.2.1 305419896 (by norm_num)⟩

/-- Witness for C5 at the concrete all-ones affine: the permutation is
`[1,2,3]` and the first flip component is 0. -/
theorem calculateRAS_perm_bijection_witness :
    (permList (fun _ _ => num 1)).Perm [1, 2, 3] ∧
      ((0:ℕ) = 0 ∨ (0:ℕ) = 1) := by
  refine ⟨(calculateRAS_perm_bijection (fun _ _ => num 1)).1, ?_⟩
  exact (calculateRAS_perm_bijection (fun _ _ => num 1)).2 0 (by decide)

/-! ## Cloning (C6)

`clone()` (nvimage.js lines 1437-1445).  JavaScript objects and arrays are
reference values; the heap of arrays is modelled explicitly as a `Store`,
and header/image objects hold indices into it. -/

/-- The heap of JavaScript arrays reachable from the images. -/
structure Store where
  arrs : List (List ℚ)
  deriving DecidableEq, Repr

/-- Read element `i` of the array at reference `r`. -/
def readArr (s : Store) (r i : ℕ) : ℚ := (s.arrs.getD r []).getD i 0

/-- Write element `i` of the array at reference `r` (in-place mutation). -/
def writeArr (s : Store) (r i : ℕ) (q : ℚ) : Store :=
  ⟨s.arrs.set r ((s.arrs.getD r []).set i q)⟩

/-- The array-valued fields of a header: references into the store. -/
structure HdrRefs where
  dims : ℕ
  pixDims : ℕ
  affine : ℕ
  deriving DecidableEq, Repr

/-- An image: its header and the voxel-buffer reference. -/
structure ImageRefs where
  hdr : HdrRefs
  img : ℕ
  deriving DecidableEq, Repr

/-- `clone()`: `Object.assign({}, this.hdr)` copies the header fields —
including the array references `dims`, `pixDims`, `affine` — into a fresh
header object without copying the arrays themselves; `this.img.slice()`
allocates a fresh buffer holding the same elements.  The subsequent
`calculateRAS()`/`calMinMax()` calls recompute derived scalar fields and
touch no array, so they are outside this heap model. -/
def cloneImage (s : Store) (src : ImageRefs) : Store × ImageRefs :=
  let newBuf := s.arrs.getD src.img []
  (⟨s.arrs ++ [newBuf]⟩,
    { hdr := { dims := src.hdr.dims, pixDims := src.hdr.pixDims, affine := src.hdr.affine },
      img := s.arrs.length })

/-- **C6, counterexample.**  On a concrete store, the cloned image's `dims`
reference equals the source's, and writing `99` into the source's dims
array is observed through the clone: header state is shared, so mutating
one image does change the other, contradicting the deep-copy claim. -/
theorem clone_shares_header_arrays_counterexample :
    (cloneImage ⟨[[3, 3, 3], [1, 1, 1], [2, 0, 0, 2], [7, 7]]⟩
        ⟨⟨0, 1, 2⟩, 3⟩).2.hdr.dims = (⟨⟨0, 1, 2⟩, 3⟩ : ImageRefs).hdr.dims ∧
      readArr (cloneImage ⟨[[3, 3, 3], [1, 1, 1], [2, 0, 0, 2], [7, 7]]⟩
        ⟨⟨0, 1, 2⟩, 3⟩).1
        (cloneImage ⟨[[3, 3, 3], [1, 1, 1], [2, 0, 0, 2], [7, 7]]⟩ ⟨⟨0, 1, 2⟩, 3⟩).2.hdr.dims
        0 = 3 ∧
      readArr
        (writeArr (cloneImage ⟨[[3, 3, 3], [1, 1, 1], [2, 0, 0, 2], [7, 7]]⟩
          ⟨⟨0, 1, 2⟩, 3⟩).1 0 0 99)
        (cloneImage ⟨[[3, 3, 3], [1, 1, 1], [2, 0, 0, 2], [7, 7]]⟩ ⟨⟨0, 1, 2⟩, 3⟩).2.hdr.dims
        0 = 99 := by
  refine ⟨rfl, ?_, ?_⟩ <;> norm_num [readArr, writeArr, cloneImage, List.getD]

/-- **C6, amended.**  `clone()` deep-copies the voxel buffer — the clone's
buffer is a fresh reference whose contents equal the source's — and
re-derives the derived fields, but it only shallow-copies the header: the
nested `dims`, `pixDims` and `affine` array references are shared between
clone and source, so mutating those arrays through one image changes the
other. -/
theorem clone_buffer_fresh_header_shared (s : Store) (src : ImageRefs)
    (himg : src.img < s.arrs.length) :
    (cloneImage s src).2.img = s.arrs.length ∧
      (cloneImage s src).2.img ≠ src.img ∧
      (cloneImage s src).1.arrs.getD (cloneImage s src).2.img []
        = (cloneImage s src).1.arrs.getD src.img [] ∧
      (cloneImage s src).2.hdr = src.hdr := by
  refine ⟨rfl, by simp [cloneImage]; omega, ?_, rfl⟩
  show (s.arrs ++ [s.arrs.getD src.img []]).getD s.arrs.length []
      = (s.arrs ++ [s.arrs.getD src.img []]).getD src.img []
  simp only [List.getD_eq_getElem?_getD, List.getElem?_append]
  rw [if_neg (by omega), if_pos himg, Nat.sub_self]
  simp

/-- Witness for the amended C6 theorem at a concrete store and image. -/
theorem clone_buffer_fresh_header_shared_witness :
    (cloneImage ⟨[[3, 3, 3], [1, 1, 1], [2, 0, 0, 2], [7, 7]]⟩ ⟨⟨0, 1, 2⟩, 3⟩).2.img = 4 ∧
      (cloneImage ⟨[[3, 3, 3], [1, 1, 1], [2, 0, 0, 2], [7, 7]]⟩ ⟨⟨0, 1, 2⟩, 3⟩).2.hdr
        = (⟨⟨0, 1, 2⟩, 3⟩ : ImageRefs).hdr := by
  have h := clone_buffer_fresh_header_shared ⟨[[3, 3, 3], [1, 1, 1], [2, 0, 0, 2], [7, 7]]⟩
    ⟨⟨0, 1, 2⟩, 3⟩ (by norm_num)
  exact ⟨h.1, h.2.2.2⟩

/-! ## NRRD header keys (C7)

`readNRRD` (nvimage.js lines 674-930).  Its per-line `switch (key)` is
modelled as a transition on the decoding state; `throw` (the unsupported
`type` case, line 777) is `Except.error`, while `alert(...)` merely records
an advisory and decoding continues. -/

/-- Substring test (`String.includes`): does `pat` occur inside `s`? -/
def hasPrefixList : List Char → List Char → Bool
  | [], _ => true
  | _ :: _, [] => false
  | p :: ps, c :: cs => p = c && hasPrefixList ps cs

/-- Substring test continued: scan all suffixes. -/
def hasSubList : List Char → List Char → Bool
  | pat, [] => pat.isEmpty
  | pat, s@(_ :: rest) => hasPrefixList pat s || hasSubList pat rest

/-- `value.includes(pat)`. -/
def jsIncludes (value pat : String) : Bool := hasSubList pat.toList value.toList

/-- The decoding state accumulated by the `readNRRD` key loop, restricted to
the fields the studied keys touch. -/
structure NRRDState where
  isGz : Bool := false
  isDetached : Bool := false
  isMicron : Bool := false
  littleEndian : Bool := true
  numBitsPerVoxel : ℕ := 0
  datatypeCode : ℕ := 0
  alerts : List String := []
  deriving DecidableEq, Repr

/-- One `key: value` line of the NRRD header (the `switch (key)` at lines
713-862, for the keys relevant to C7: `data file`, `encoding`, `type`,
`endian`; every other key leaves this state unchanged). -/
def readNRRDKey (st : NRRDState) (key value : String) : Except String NRRDState :=
  if key = "data file" then .ok { st with isDetached := true }
  else if key = "encoding" then
    if jsIncludes value ("raw") then .ok { st with isGz := false }
    else if jsIncludes value ("gz") then .ok { st with isGz := true }
    else .ok { st with alerts := st.alerts ++ ["Unsupported NRRD encoding"] }
  else if key = "type" then
    match value with
    | "uchar" | "unsigned char" | "uint8" | "uint8_t" =>
      .ok { st with numBitsPerVoxel := 8, datatypeCode := DT_UNSIGNED_CHAR }
    | "signed char" | "int8" | "int8_t" =>
      .ok { st with numBitsPerVoxel := 8, datatypeCode := DT_INT8 }
    | "short" | "short int" | "signed short" | "signed short int" | "int16" | "int16_t" =>
      .ok { st with numBitsPerVoxel := 16, datatypeCode := DT_SIGNED_SHORT }
    | "ushort" | "unsigned short" | "unsigned short int" | "uint16" | "uint16_t" =>
      .ok { st with numBitsPerVoxel := 16, datatypeCode := DT_UINT16 }
    | "int" | "signed int" | "int32" | "int32_t" =>
      .ok { st with numBitsPerVoxel := 32, datatypeCode := DT_SIGNED_INT }
    | "uint" | "unsigned int" | "uint32" | "uint32_t" =>
      .ok { st with numBitsPerVoxel := 32, datatypeCode := DT_UINT32 }
    | "float" => .ok { st with numBitsPerVoxel := 32, datatypeCode := DT_FLOAT }
    | "double" => .ok { st with numBitsPerVoxel := 64, datatypeCode := DT_DOUBLE }
    | _ => .error ("Unsupported NRRD data type: " ++ value)
  else if key = "endian" then
    if jsIncludes value ("little") then .ok { st with littleEndian := true }
    else if jsIncludes value ("big") then .ok { st with littleEndian := false }
    else .ok st
  else .ok st

/-- The key loop: thread the state through the parsed `key: value` lines,
stopping at the first thrown error. -/
def readNRRDKeys (st : NRRDState) : List (String × String) → Except String NRRDState
  | [] => .ok st
  | (k, v) :: rest => do
    let st2 ← readNRRDKey st k v
    readNRRDKeys st2 rest

/-- **C7, counterexample.**  A NRRD header declaring `encoding: ascii`
(neither raw nor gzip) does **not** abort the decode: the key loop returns
successfully (only an alert advisory is recorded, and the data is then
treated as uncompressed), so decoding continues and an image is still
constructed — contradicting the claimed fatal `UnsupportedEncoding`
failure.  An unknown `type`, by contrast, is genuinely fatal. -/
theorem nrrd_encoding_not_fatal_counterexample :
    readNRRDKeys {} [("encoding", "ascii"), ("type", "float")]
      = .ok { isGz := false, numBitsPerVoxel := 32, datatypeCode := DT_FLOAT, alerts := ["Unsupported NRRD encoding"] } ∧
      readNRRDKeys {} [("type", "banana")]
        = .error ("Unsupported NRRD data type: banana") := by
  constructor <;> rfl

/-- **C7, amended.**  For every encoding value containing neither `raw` nor
`gz`, the `encoding` key records an `Unsupported NRRD encoding` alert and
decoding continues with the compression flag unchanged (never an error),
while an unrecognized `type` value always throws and aborts the decode. -/
theorem nrrd_encoding_alert_type_fatal (st : NRRDState) (v : String)
    (hraw : jsIncludes v ("raw") = false) (hgz : jsIncludes v ("gz") = false) :
    readNRRDKey st ("encoding") v
      = .ok { st with alerts := st.alerts ++ ["Unsupported NRRD encoding"] } ∧
      readNRRDKey st ("type") ("banana") = .error ("Unsupported NRRD data type: banana") := by
  constructor
  · simp [readNRRDKey, hraw, hgz]
  · rfl

/-- Witness for the amended C7 theorem at `v = "ascii"`. -/
theorem nrrd_encoding_alert_type_fatal_witness :
    readNRRDKey {} ("encoding") ("ascii")
      = .ok { alerts := ["Unsupported NRRD encoding"] } ∧
      readNRRDKey {} ("type") ("banana") = .error ("Unsupported NRRD data type: banana") := by
  have h := nrrd_encoding_alert_type_fatal {} ("ascii") (by rfl) (by rfl)
  exact h

/-! ## Intensity range estimation (C8, C9)

`calMinMax` (nvimage.js lines 1130-1268) and `intensityRaw2Scaled`
(lines 1271-1274).  The colormap registry (`cmaps`, an excluded
collaborator) is passed as an association list parameter. -/

/-- `toLowerCase()` on one character (ASCII; colormap names are ASCII).
`String.toLower` itself does not evaluate inside the kernel, so the map is
spelled out. -/
def lowerChar (c : Char) : Char :=
  if 65 ≤ c.toNat ∧ c.toNat ≤ 90 then Char.ofNat (c.toNat + 32) else c

/-- `cm.toLowerCase()`. -/
def jsToLower (s : String) : String := ⟨s.data.map lowerChar⟩

/-- JavaScript `===` between two numbers (false whenever either is NaN). -/
def jsStrictEq : JSNum → JSNum → Bool
  | JSNum.num a, JSNum.num b => a == b
  | _, _ => false

/-- `intensityRaw2Scaled(hdr, raw)`: `raw * scl_slope + scl_inter`, a zero
slope being treated as 1 (the source writes the 1 back into the header;
only the value used matters here). -/
def intensityRaw2Scaled (slope inter : ℚ) (raw : JSNum) : JSNum :=
  (raw.mul (num (if slope = 0 then 1 else slope))).add (num inter)

/-- The image state read and written by `calMinMax`. -/
structure CalState where
  colorMap : String
  img : List JSNum
  trustCalMinMax : Bool
  ignoreZeroVoxels : Bool
  percentileFrac : ℚ
  hdr_cal_min : JSNum
  hdr_cal_max : JSNum
  scl_slope : ℚ
  scl_inter : ℚ
  cal_min : JSNum := JSNum.nan
  cal_max : JSNum := JSNum.nan
  robust_min : JSNum := JSNum.nan
  robust_max : JSNum := JSNum.nan
  global_min : JSNum := JSNum.nan
  global_max : JSNum := JSNum.nan
  deriving DecidableEq, Repr

/-- One step of the full-range scan (lines 1174-1187): skip NaN, count
zeros (skipping them only when `ignoreZeroVoxels`), track raw min/max. -/
def scanStep (ignoreZero : Bool) (acc : JSNum × JSNum × ℕ × ℕ) (v : JSNum) :
    JSNum × JSNum × ℕ × ℕ :=
  let (mn, mx, nZero, nNan) := acc
  if v.isNaNb then (mn, mx, nZero, nNan + 1)
  else
    let nZero2 := if v.eqNum 0 then nZero + 1 else nZero
    if v.eqNum 0 && ignoreZero then (mn, mx, nZero2, nNan)
    else (JSNum.minJ v mn, JSNum.maxJ v mx, nZero2, nNan)

/-- The full-range scan; `mn`/`mx` start from `img[0]` (NaN when the buffer
is empty, like the `undefined` the source would read). -/
def scanMinMax (ignoreZero : Bool) (img : List JSNum) : JSNum × JSNum × ℕ × ℕ :=
  img.foldl (scanStep ignoreZero) (img.getD 0 JSNum.nan, img.getD 0 JSNum.nan, 0, 0)

/-- `hist[Math.round((img[i] - mn) * scl)]++`.  A NaN index writes to no
bin; every value scanned into the histogram lies in `[mn, mx]`, so the real
index is always inside the 1001 bins and the guard is never active. -/
def histWrite (hist : List ℕ) (x : JSNum) : List ℕ :=
  match x with
  | JSNum.nan => hist
  | JSNum.num q =>
    let idx := round q
    if 0 ≤ idx ∧ idx.toNat < hist.length then
      hist.set idx.toNat (hist.getD idx.toNat 0 + 1)
    else hist

/-- One step of the histogram fill (lines 1209-1222): the `ignoreZeroVoxels`
variant skips zeros first, both variants skip NaN.  (The source loop runs
one index past the buffer; that read yields `undefined`, which the NaN test
skips, so it is a no-op.) -/
def buildHistStep (ignoreZero : Bool) (mn scl : JSNum) (hist : List ℕ) (v : JSNum) :
    List ℕ :=
  if ignoreZero then
    if v.eqNum 0 then hist
    else if v.isNaNb then hist
    else histWrite hist ((v.sub mn).mul scl)
  else
    if v.isNaNb then hist
    else histWrite hist ((v.sub mn).mul scl)

/-- The 1001-bin histogram (`nBins = 1001`, line 1203). -/
def buildHist (ignoreZero : Bool) (mn scl : JSNum) (img : List JSNum) : List ℕ :=
  img.foldl (buildHistStep ignoreZero mn scl) (List.replicate 1001 0)

/-- The low-cut loop (lines 1223-1228): `while (n < n2pct) { n += hist[lo];
lo++; }`.  When the loop runs off the end of the histogram the source adds
`undefined`, making `n` NaN, and the next test fails: one extra increment,
then exit. -/
def walkLoGo (t : ℕ) : List ℕ → ℕ → ℕ → ℕ
  | [], n, lo => if n < t then lo + 1 else lo
  | h :: tl, n, lo => if n < t then walkLoGo t tl (n + h) (lo + 1) else lo

/-- The value of `lo` when the low-cut loop exits (before the `lo--`). -/
def walkLo (hist : List ℕ) (t : ℕ) : ℕ := walkLoGo t hist 0 0

/-- The high-cut loop (lines 1230-1235): `hi = nBins; while (n < n2pct)
{ hi--; n += hist[hi]; }`, accumulating from the top; falling off the
bottom gives one extra decrement (to `-1`), then exit. -/
def walkHiGo (t : ℕ) : List ℕ → ℕ → ℤ → ℤ
  | [], n, hi => if n < t then hi - 1 else hi
  | h :: tl, n, hi => if n < t then walkHiGo t tl (n + h) (hi - 1) else hi

/-- The value of `hi` when the high-cut loop exits. -/
def walkHi (hist : List ℕ) (t : ℕ) : ℤ := walkHiGo t hist.reverse 0 hist.length

/-- One fuelled unfolding of the tie-widening loop (lines 1236-1250):
step `lo` down preferring a populated bin, else step `hi` up, and stop when
a populated bin was found or both ends of the histogram are reached.  Each
iteration decreases `lo + (nBins - 1 - hi)`, so the fuel supplied by
`widen` below always suffices. -/
def widenGo (hist : List ℕ) : ℕ → ℕ → ℕ → ℕ × ℕ
  | 0, lo, hi => (lo, hi)
  | fuel + 1, lo, hi =>
    let nB := hist.length
    let lo1 := if 0 < lo then lo - 1 else lo
    let ok1 := decide (0 < lo) && decide (0 < hist.getD lo1 0)
    let hi1 := if !ok1 && hi < nB - 1 then hi + 1 else hi
    let ok2 := ok1 || (!ok1 && decide (hi < nB - 1) && decide (0 < hist.getD hi1 0))
    let ok3 := ok2 || (decide (lo1 = 0) && decide (hi1 = nB - 1))
    if ok3 then (lo1, hi1) else widenGo hist fuel lo1 hi1

/-- The tie-widening loop, entered when `lo == hi`. -/
def widen (hist : List ℕ) (lo hi : ℕ) : ℕ × ℕ :=
  widenGo hist (lo + hist.length + 1) lo hi

/-- The two cut bin indices produced by the histogram walk: `lo--` after
the low loop, the widening pass when the cuts collide. -/
def histCuts (hist : List ℕ) (t : ℕ) : ℕ × ℤ :=
  let lo := walkLo hist t - 1
  let hi := walkHi hist t
  if (lo : ℤ) = hi then
    let p := widen hist lo lo
    (p.1, (p.2 : ℤ))
  else (lo, hi)

/-- `calMinMax()` (lines 1130-1268), as a pure state transformer.  The
four return paths: colormap fixed range, trusted author range, collapsed
single-value range, histogram percentile range. -/
def calMinMax (reg : List (String × ℚ × ℚ)) (s : CalState) : CalState :=
  let cmPair := match reg.find? fun p => p.1 == jsToLower s.colorMap with
    | some p => p.2
    | none => ((0:ℚ), (0:ℚ))
  let cmMin := cmPair.1
  let cmMax := cmPair.2
  if cmMin = cmMax ∧ s.trustCalMinMax ∧ s.hdr_cal_min.isFiniteb ∧ s.hdr_cal_max.isFiniteb
      ∧ s.hdr_cal_max.gtb s.hdr_cal_min then
    { s with
      cal_min := s.hdr_cal_min, cal_max := s.hdr_cal_max,
      robust_min := s.hdr_cal_min, robust_max := s.hdr_cal_max,
      global_min := s.hdr_cal_min, global_max := s.hdr_cal_max }
  else if cmMin ≠ cmMax then
    { s with
      cal_min := num cmMin, cal_max := num cmMax,
      robust_min := num cmMin, robust_max := num cmMax }
  else
    let scan := scanMinMax s.ignoreZeroVoxels s.img
    let mn := scan.1
    let mx := scan.2.1
    let nZeroRaw := scan.2.2.1
    let nNan := scan.2.2.2
    let mnScale := intensityRaw2Scaled s.scl_slope s.scl_inter mn
    let mxScale := intensityRaw2Scaled s.scl_slope s.scl_inter mx
    let nZero := (if s.ignoreZeroVoxels then nZeroRaw else 0) + nNan
    let nVox := s.img.length
    let n2pct : ℤ := round (((nVox : ℚ) - nZero) * s.percentileFrac)
    if n2pct < 1 ∨ jsStrictEq mn mx then
      { s with
        cal_min := mnScale, cal_max := mxScale, robust_min := mnScale,
        robust_max := mxScale, global_min := mnScale, global_max := mxScale }
    else
      let scl := (num 1000).div (mx.sub mn)
      let hist := buildHist s.ignoreZeroVoxels mn scl s.img
      let cuts := histCuts hist n2pct.toNat
      let pct2c := intensityRaw2Scaled s.scl_slope s.scl_inter
        (((num cuts.1).div scl).add mn)
      let pct98c := intensityRaw2Scaled s.scl_slope s.scl_inter
        (((num (cuts.2 : ℚ)).div scl).add mn)
      let useHdr := s.hdr_cal_min.ltb s.hdr_cal_max && s.hdr_cal_min.geb mnScale
        && s.hdr_cal_max.leb mxScale
      let pct2 := if useHdr then s.hdr_cal_min else pct2c
      let pct98 := if useHdr then s.hdr_cal_max else pct98c
      { s with
        cal_min := pct2, cal_max := pct98, robust_min := pct2, robust_max := pct98,
        global_min := mnScale, global_max := mxScale }

/-- **C9.**  On every return path of `calMinMax` — colormap fixed range,
trusted author range, collapsed single-value range, histogram percentile
range — the resulting state satisfies `robust_min == cal_min` and
`robust_max == cal_max`. -/
theorem calMinMax_robust_eq_cal (reg : List (String × ℚ × ℚ)) (s : CalState) :
    (calMinMax reg s).robust_min = (calMinMax reg s).cal_min ∧
      (calMinMax reg s).robust_max = (calMinMax reg s).cal_max := by
  simp only [calMinMax]
  constructor <;> (repeat' split) <;> simp

theorem take_sum_mono (l : List ℕ) {a b : ℕ} (hab : a ≤ b) :
    (l.take a).sum ≤ (l.take b).sum := by
  have h := List.sum_take_add_sum_drop (l.take b) a
  rw [List.take_take, min_eq_left hab] at h
  omega

theorem walkLoGo_ge (t : ℕ) (rem : List ℕ) : ∀ n lo, lo ≤ walkLoGo t rem n lo := by
  induction rem with
  | nil =>
    intro n lo
    unfold walkLoGo
    split <;> omega
  | cons h tl ih =>
    intro n lo
    unfold walkLoGo
    split
    · exact le_trans (by omega) (ih (n + h) (lo + 1))
    · exact le_refl lo

theorem walkLoGo_offset (t : ℕ) (rem : List ℕ) :
    ∀ n lo, walkLoGo t rem n lo = lo + walkLoGo t rem n 0 := by
  induction rem with
  | nil =>
    intro n lo
    unfold walkLoGo
    by_cases hn : n < t <;> simp [hn]
  | cons h tl ih =>
    intro n lo
    unfold walkLoGo
    by_cases hn : n < t <;> simp [hn]
    rw [ih (n + h) (lo + 1), ih (n + h) 1]
    omega

theorem walkLoGo_pos (t : ℕ) (rem : List ℕ) (n : ℕ) (hn : n < t) :
    1 ≤ walkLoGo t rem n 0 := by
  cases rem with
  | nil => simp [walkLoGo, hn]
  | cons h tl =>
    unfold walkLoGo
    rw [if_pos hn]
    have := walkLoGo_ge t tl (n + h) (0 + 1)
    omega

/-- The mass strictly below the crossing bin of the low walk is below the
threshold. -/
theorem walkLoGo_below_mass (t : ℕ) (rem : List ℕ) :
    ∀ n, n < t → (rem.take (walkLoGo t rem n 0 - 1)).sum + n < t := by
  induction rem with
  | nil =>
    intro n hn
    unfold walkLoGo
    rw [if_pos hn]
    simpa using hn
  | cons h tl ih =>
    intro n hn
    unfold walkLoGo
    rw [if_pos hn, walkLoGo_offset t tl (n + h) 1]
    by_cases hnh : n + h < t
    · have h1 : 1 ≤ walkLoGo t tl (n + h) 0 := walkLoGo_pos t tl (n + h) hnh
      rw [show 1 + walkLoGo t tl (n + h) 0 - 1 = (walkLoGo t tl (n + h) 0 - 1) + 1 by omega,
        List.take_succ_cons, List.sum_cons]
      have := ih (n + h) hnh
      omega
    · have hW : walkLoGo t tl (n + h) 0 = 0 := by
        cases tl <;> simp [walkLoGo, hnh]
      rw [hW]
      simpa using hn

/-- The high-cut loop is the low-cut loop on the reversed histogram, read
as a decreasing cursor. -/
theorem walkHiGo_shift (t : ℕ) (rem : List ℕ) :
    ∀ (n : ℕ) (hi : ℤ), walkHiGo t rem n hi = hi - walkLoGo t rem n 0 := by
  induction rem with
  | nil =>
    intro n hi
    unfold walkHiGo walkLoGo
    by_cases hn : n < t <;> simp [hn]
  | cons h tl ih =>
    intro n hi
    unfold walkHiGo walkLoGo
    by_cases hn : n < t <;> simp [hn]
    rw [ih (n + h) (hi - 1), walkLoGo_offset t tl (n + h) 1]
    push_cast
    ring

/-- A prefix and a suffix that jointly span the list cover its whole sum. -/
theorem take_rev_take_cover (l : List ℕ) (a b : ℕ) (hab : l.length ≤ a + b) :
    l.sum ≤ (l.take a).sum + (l.reverse.take b).sum := by
  by_cases ha : l.length ≤ a
  · rw [List.take_of_length_le ha]
    omega
  · push_neg at ha
    have hb : l.length - a ≤ b := by omega
    have h1 : (l.reverse.take (l.length - a)).sum ≤ (l.reverse.take b).sum :=
      take_sum_mono _ hb
    have h2 : (l.reverse.take (l.length - a)).sum = (l.drop a).sum := by
      have h3 : (l.reverse.take (l.length - a)).reverse = l.drop a := by
        have h4 := @List.reverse_take ℕ l.reverse (l.length - a)
        rw [List.reverse_reverse, List.length_reverse] at h4
        rw [h4, show l.length - (l.length - a) = a by omega]
      calc (l.reverse.take (l.length - a)).sum
          = (l.reverse.take (l.length - a)).reverse.sum := (List.sum_reverse _).symm
        _ = (l.drop a).sum := by rw [h3]
    have h5 := List.sum_take_add_sum_drop l a
    omega

theorem widenGo_fst_le (hist : List ℕ) :
    ∀ fuel lo hi, (widenGo hist fuel lo hi).1 ≤ lo := by
  intro fuel
  induction fuel with
  | zero =>
    intro lo hi
    exact le_refl lo
  | succ f ih =>
    intro lo hi
    unfold widenGo
    dsimp only
    repeat' split
    all_goals
      first
        | omega
        | exact le_trans (ih _ _) (by omega)

theorem widenGo_snd_ge (hist : List ℕ) :
    ∀ fuel lo hi, hi ≤ (widenGo hist fuel lo hi).2 := by
  intro fuel
  induction fuel with
  | zero =>
    intro lo hi
    exact le_refl hi
  | succ f ih =>
    intro lo hi
    unfold widenGo
    dsimp only
    repeat' split
    all_goals
      first
        | omega
        | exact le_trans (by omega) (ih _ _)

/-- One pass of the widening loop always moves the low cursor down when it
starts at a positive bin index. -/
theorem widen_fst_lt (hist : List ℕ) (k : ℕ) (hk : 0 < k) : (widen hist k k).1 < k := by
  unfold widen
  rw [show k + hist.length + 1 = (k + hist.length) + 1 from rfl]
  unfold widenGo
  dsimp only
  rw [if_pos hk]
  repeat' split
  all_goals
    first
      | (show k - 1 < k
         omega)
      | exact lt_of_le_of_lt (widenGo_fst_le hist _ _ _) (by omega)

/-- **C8, amended.**  Whenever the histogram stage is reached with
`n2pct ≥ 1` **and** the threshold does not exceed half the histogram mass
(`2 * n2pct ≤ mass + 1`, which always holds for the default 2% percentile
fraction), the cut indices satisfy `lo ≤ hi` on termination; and the
tie-widening pass, entered at any interior start value `k > 0`, always
moves the low index strictly below `k`, so it never leaves both indices at
the start value.  (Without the mass bound the claim is false: see the
counterexample.) -/
theorem histCuts_ordered (hist : List ℕ) (t : ℕ) (ht : 1 ≤ t)
    (hmass : 2 * t ≤ hist.sum + 1) :
    (((histCuts hist t).1 : ℕ) : ℤ) ≤ (histCuts hist t).2 ∧
      ∀ k : ℕ, 0 < k → (widen hist k k).1 < k := by
  refine ⟨?_, fun k hk => widen_fst_lt hist k hk⟩
  have g1 : 1 ≤ walkLoGo t hist 0 0 := walkLoGo_pos t hist 0 (by omega)
  have g2 : 1 ≤ walkLoGo t hist.reverse 0 0 := walkLoGo_pos t hist.reverse 0 (by omega)
  have hb1 := walkLoGo_below_mass t hist 0 (by omega)
  have hb2 := walkLoGo_below_mass t hist.reverse 0 (by omega)
  have hkey : walkLoGo t hist 0 0 + walkLoGo t hist.reverse 0 0 ≤ hist.length + 1 := by
    by_contra hcon
    push_neg at hcon
    have hcov := take_rev_take_cover hist (walkLoGo t hist 0 0 - 1)
      (walkLoGo t hist.reverse 0 0 - 1) (by omega)
    omega
  simp only [histCuts, walkLo, walkHi]
  rw [walkHiGo_shift]
  split
  · have h1 := widenGo_fst_le hist ((walkLoGo t hist 0 0 - 1) + hist.length + 1)
      (walkLoGo t hist 0 0 - 1) (walkLoGo t hist 0 0 - 1)
    have h2 := widenGo_snd_ge hist ((walkLoGo t hist 0 0 - 1) + hist.length + 1)
      (walkLoGo t hist 0 0 - 1) (walkLoGo t hist 0 0 - 1)
    unfold widen
    dsimp only
    omega
  · omega

/-- Witness for the amended C8 theorem at the concrete histogram `[1,1,1]`
with threshold 1, and widening started at bin 1. -/
theorem histCuts_ordered_witness :
    (((histCuts [1, 1, 1] 1).1 : ℕ) : ℤ) ≤ (histCuts [1, 1, 1] 1).2 ∧
      (widen [1, 1, 1] 1 1).1 < 1 := by
  have h := histCuts_ordered [1, 1, 1] 1 (by norm_num) (by decide)
  exact ⟨h.1, h.2 1 (by norm_num)⟩

/-- Setting the last slot of an all-zero list. -/
theorem set_replicate_last (k : ℕ) :
    (List.replicate (k + 1) (0:ℕ)).set k 1 = List.replicate k 0 ++ [1] := by
  induction k with
  | zero => rfl
  | succ n ih =>
    rw [List.replicate_succ, List.set_cons_succ, ih, List.replicate_succ]
    rfl

theorem getD_replicate_zero (n i : ℕ) : (List.replicate n (0:ℕ)).getD i 0 = 0 := by
  induction n generalizing i with
  | zero => simp [List.getD]
  | succ m ih =>
    cases i with
    | zero => simp [List.replicate_succ]
    | succ j =>
      rw [List.replicate_succ]
      exact ih j

/-- The low walk passes over a block of empty bins while below threshold. -/
theorem walkLoGo_replicate_run (t k : ℕ) (rest : List ℕ) :
    ∀ n lo, n < t →
      walkLoGo t (List.replicate k 0 ++ rest) n lo = walkLoGo t rest n (lo + k) := by
  induction k with
  | zero =>
    intro n lo _
    simp
  | succ m ih =>
    intro n lo hn
    rw [List.replicate_succ, List.cons_append]
    have hstep1 : walkLoGo t (0 :: (List.replicate m 0 ++ rest)) n lo
        = walkLoGo t (List.replicate m 0 ++ rest) (n + 0) (lo + 1) := by
      simp only [walkLoGo]
      rw [if_pos hn]
    rw [hstep1, ih (n + 0) (lo + 1) (by omega)]
    congr 1
    omega

theorem walkLoGo_spike_hist :
    walkLoGo 2 (1 :: (List.replicate 999 0 ++ [1])) 0 0 = 1001 := by
  unfold walkLoGo
  rw [if_pos (by norm_num), walkLoGo_replicate_run 2 999 [1] (0 + 1) (0 + 1) (by norm_num)]
  unfold walkLoGo
  rw [if_pos (by norm_num)]
  unfold walkLoGo
  rw [if_neg (by norm_num)]

/-- **C8, counterexample.**  With the two-voxel buffer `[0, 1]`, scaling
slope 1 / intercept 0, `ignoreZeroVoxels = false` and `percentileFrac =
0.9` (a caller-supplied parameter the claim does not restrict), the
histogram stage is reached — `n2pct = round((2 - 0) * 0.9) = 2 ≥ 1` and raw
min `0 ≠ 1` raw max — the histogram has one voxel in bin 0 and one in bin
1000, and the cut walk terminates with `lo = 1000 > hi = 0`: the claimed
`lo ≤ hi` is violated. -/
theorem histCuts_lo_gt_hi_counterexample :
    scanMinMax false [num 0, num 1] = (num 0, num 1, 1, 0) ∧
      round (((2:ℚ) - 0) * (9 / 10)) = 2 ∧
      jsStrictEq (num 0) (num 1) = false ∧
      (num 1000).div ((num 1).sub (num 0)) = num 1000 ∧
      buildHist false (num 0) (num 1000) [num 0, num 1]
        = 1 :: (List.replicate 999 0 ++ [1]) ∧
      histCuts (1 :: (List.replicate 999 0 ++ [1])) 2 = (1000, 0) ∧
      ¬(((1000 : ℕ) : ℤ) ≤ 0) := by
  refine ⟨?_, ?_, rfl, ?_, ?_, ?_, by norm_num⟩
  · norm_num [scanMinMax, scanStep, JSNum.minJ, JSNum.maxJ, JSNum.isNaNb, JSNum.eqNum]
  · norm_num [round_eq]
  · norm_num [JSNum.div, JSNum.sub]
  · have e1 : ((num 0).sub (num 0)).mul (num 1000) = num 0 := by
      norm_num [JSNum.sub, JSNum.mul]
    have e2 : ((num 1).sub (num 0)).mul (num 1000) = num 1000 := by
      norm_num [JSNum.sub, JSNum.mul]
    have hstep : buildHist false (num 0) (num 1000) [num 0, num 1]
        = histWrite (histWrite (List.replicate 1001 0) (num 0)) (num 1000) := by
      simp only [buildHist, List.foldl, buildHistStep, JSNum.isNaNb, Bool.false_eq_true,
        if_false, e1, e2]
    have hw1 : histWrite (List.replicate 1001 0) (num 0) = 1 :: List.replicate 1000 0 := by
      simp only [histWrite]
      rw [show round (0:ℚ) = 0 by norm_num, show ((0:ℤ)).toNat = 0 from rfl]
      rw [if_pos ⟨le_refl 0, by rw [List.length_replicate]; norm_num⟩]
      rw [show (List.replicate 1001 (0:ℕ)).getD 0 0 = 0 from rfl]
      rw [show (List.replicate 1001 (0:ℕ)) = 0 :: List.replicate 1000 0 from rfl]
      rw [List.set_cons_zero]
    
    have hw2 : histWrite (1 :: List.replicate 1000 0) (num 1000)
        = 1 :: (List.replicate 999 0 ++ [1]) := by
      simp only [histWrite]
      rw [show round (1000:ℚ) = 1000 by norm_num, show ((1000:ℤ)).toNat = 1000 from rfl]
      rw [if_pos ⟨by norm_num, by rw [List.length_cons, List.length_replicate]; norm_num⟩]
      rw [show (1000 : ℕ) = 999 + 1 from rfl]
      rw [List.getD_cons_succ, getD_replicate_zero (999 + 1) 999]
      rw [List.set_cons_succ]
      rw [show (0 : ℕ) + 1 = 1 from rfl, set_replicate_last 999]
    rw [hstep, hw1, hw2]
  · have hrev : (1 :: (List.replicate 999 (0:ℕ) ++ [1])).reverse
        = 1 :: (List.replicate 999 0 ++ [1]) := by
      rw [List.reverse_cons, List.reverse_append, List.reverse_replicate,
        List.reverse_singleton, List.singleton_append, List.cons_append]
    have hlen : (1 :: (List.replicate 999 (0:ℕ) ++ [1])).length = 1001 := by
      rw [List.length_cons, List.length_append, List.length_replicate,
        List.length_singleton]
    unfold histCuts walkLo walkHi
    rw [walkHiGo_shift, hrev, hlen, walkLoGo_spike_hist]
    norm_num

/-! ## Colormap selection (C10)

`setColorMap` (nvimage.js lines 1116-1124).  `colorMaps()` enumerates the
keys of the `cmaps` registry (an excluded collaborator, passed as a
parameter); its keys are lower-case module exports. -/

/-- `colorMaps()`: the registry's key list. -/
def colorMapKeys (reg : List (String × ℚ × ℚ)) : List String := reg.map Prod.fst

/-- `setColorMap(cm)`: when the lower-cased name is among the registry keys,
store it and recompute the intensity range via `calMinMax`; otherwise only
warn, leaving the image untouched. -/
def setColorMap (reg : List (String × ℚ × ℚ)) (s : CalState) (cm : String) : CalState :=
  if (colorMapKeys reg).contains (jsToLower cm) then
    calMinMax reg { s with colorMap := jsToLower cm }
  else s

/-- `cm` is present case-insensitively in the registry. -/
def presentCI (reg : List (String × ℚ × ℚ)) (cm : String) : Prop :=
  ∃ k ∈ colorMapKeys reg, jsToLower k = jsToLower cm

theorem calMinMax_colorMap (reg : List (String × ℚ × ℚ)) (s : CalState) :
    (calMinMax reg s).colorMap = s.colorMap := by
  simp only [calMinMax]
  (repeat' split) <;> simp

/-- **C10.**  Assuming the registry keys are lower-case (as the colormap
module's exports are): for every name `cm` not present case-insensitively
in the registry, `setColorMap` leaves the image state entirely unchanged,
while for a case-insensitively registered name it stores the lower-cased
name and recomputes the intensity fields via `calMinMax`. -/
theorem setColorMap_spec (reg : List (String × ℚ × ℚ)) (s : CalState) (cm : String)
    (hlow : ∀ k ∈ colorMapKeys reg, jsToLower k = k) :
    (¬presentCI reg cm → setColorMap reg s cm = s) ∧
      (presentCI reg cm →
        (setColorMap reg s cm).colorMap = jsToLower cm ∧
          setColorMap reg s cm = calMinMax reg { s with colorMap := jsToLower cm }) := by
  constructor
  · intro hnp
    unfold setColorMap
    rw [if_neg]
    intro hc
    have hmem : jsToLower cm ∈ colorMapKeys reg := List.elem_iff.mp hc
    exact hnp ⟨jsToLower cm, hmem, hlow _ hmem⟩
  · intro hp
    obtain ⟨k, hk, hkeq⟩ := hp
    have hkcm : k = jsToLower cm := by
      rw [← hlow k hk, hkeq]
    have hc : (colorMapKeys reg).contains (jsToLower cm) = true :=
      List.elem_iff.mpr (hkcm ▸ hk)
    unfold setColorMap
    rw [if_pos hc]
    exact ⟨calMinMax_colorMap reg _, rfl⟩

/-- A concrete image state for the C10 witness. -/
def sampleCalState : CalState :=
  { colorMap := ("gray"), img := [num 0, num 7], trustCalMinMax := false,
    ignoreZeroVoxels := false, percentileFrac := 0, hdr_cal_min := JSNum.nan,
    hdr_cal_max := JSNum.nan, scl_slope := 1, scl_inter := 0 }

/-- Witness for C10: with registry key `gray`, the unregistered name
`PLASMA` leaves the state unchanged, and the registered name `Gray` is
stored lower-cased. -/
theorem setColorMap_spec_witness :
    setColorMap [(("gray"), 0, 0)] sampleCalState ("PLASMA") = sampleCalState ∧
      (setColorMap [(("gray"), 0, 0)] sampleCalState ("Gray")).colorMap = ("gray") := by
  constructor
  · exact (setColorMap_spec [(("gray"), 0, 0)] sampleCalState ("PLASMA") (by decide)).1
      (by unfold presentCI colorMapKeys; decide)
  · exact ((setColorMap_spec [(("gray"), 0, 0)] sampleCalState ("Gray") (by decide)).2
      (by unfold presentCI colorMapKeys; decide)).1
